import Mathlib

/-!
Verification of the JACK audio output backend (`src/audio_jack.c`).

The development shallowly embeds the backend's state and operations:

* the JACK ring buffer (an external library; its contract — byte-granular
  bounded FIFO exposed to the consumer as at most two contiguous spans — is
  modelled from the specification, section 4.1),
* `sample_conv`, `deinterleave_and_convert`, the realtime `process` callback,
  `jack_flush`, `jack_delay` and `play`, translated from the C source.

Bytes are natural numbers below 256; 16-bit samples are read from byte pairs
little-endian, as the C code's `short *` reinterpretation does on the usual
hosts.  Real arithmetic on audio amplitudes is embedded in `ℚ` (the C code
computes in `double`; the claims under study concern the exact quotients the
expressions denote).  Time values and the delay arithmetic are embedded in
`ℤ`; `>>>` on `ℤ` is the arithmetic right shift the C `>>` performs on the
`int64_t` product.
-/

namespace AudioJack

/-- Two-channel, 16bit audio: `static const int bytes_per_frame = 4;`. -/
def bytes_per_frame : ℕ := 4

/-- `#define buffer_size (44100 * 4 * bytes_per_frame)` — four seconds. -/
def buffer_size : ℕ := 44100 * 4 * bytes_per_frame

/-- Number of output ports (`#define NPORTS 2`). -/
def NPORTS : ℕ := 2

/-- `SHRT_MIN` for 16-bit `short`. -/
def SHRT_MIN : ℤ := -32768

/-- `SHRT_MAX` for 16-bit `short`. -/
def SHRT_MAX : ℤ := 32767

/-- Modelled from the spec: the JACK ring buffer (`jack/ringbuffer.h`, an
external library not part of this repository).  Per spec section 4.1 it is a
bounded byte FIFO of capacity `cap`; `rpos` is the physical position of the
read cursor (the offset of the oldest unread byte in the backing store) and
`queue` holds the unread bytes in FIFO order.  The two read spans exposed to
the consumer split `queue` at the physical end of the backing store. -/
structure RingBuffer where
  cap : ℕ
  rpos : ℕ
  queue : List ℕ
deriving Repr, DecidableEq

/-- Modelled from the spec: `unread_byte_count()` — current occupancy. -/
def jack_ringbuffer_read_space (rb : RingBuffer) : ℕ := rb.queue.length

/-- Modelled from the spec: free space left for the producer (capacity minus
occupancy; the producer truncates on overrun rather than overwrite). -/
def jack_ringbuffer_write_space (rb : RingBuffer) : ℕ := rb.cap - rb.queue.length

/-- Modelled from the spec: `read_available_regions()` — the unread bytes as
at most two contiguous spans, split where the data wraps past the physical
end of the backing store (`cap - rpos` bytes fit before the end). -/
def jack_ringbuffer_get_read_vector (rb : RingBuffer) : List ℕ × List ℕ :=
  (rb.queue.take (rb.cap - rb.rpos), rb.queue.drop (rb.cap - rb.rpos))

/-- Modelled from the spec: `advance_read(n_bytes)` — commit consumption of
the first `n` unread bytes; the physical cursor moves modulo the capacity. -/
def jack_ringbuffer_read_advance (rb : RingBuffer) (n : ℕ) : RingBuffer :=
  { rb with rpos := (rb.rpos + n) % rb.cap, queue := rb.queue.drop n }

/-- Modelled from the spec: `write(bytes) -> bytes_written` — append as many
of the offered bytes as fit in the free space, dropping the excess; returns
the new buffer and the number of bytes actually written. -/
def jack_ringbuffer_write (rb : RingBuffer) (bs : List ℕ) : RingBuffer × ℕ :=
  let t := bs.take (jack_ringbuffer_write_space rb)
  ({ rb with queue := rb.queue ++ t }, t.length)

/-- The global state of the backend: the ring buffer `jackbuf`, the flush
flag, the producer timestamp, the latency estimate maintained by the graph
callback, and whether `jack_client_open` has established a session
(`client != NULL`; `jack_delay` never consults it). -/
structure JackState where
  jackbuf : RingBuffer
  flush_please : Bool
  time_of_latest_transfer : ℤ
  jack_latency : ℤ
  client_open : Bool
deriving Repr, DecidableEq

/-- A 16-bit signed sample assembled from two bytes (low byte first), as the
C code's `short *ifp = (short *)interleaved_frames` reinterpretation reads
it. -/
def toSigned16 (b0 b1 : ℕ) : ℤ :=
  let u := b0 + 256 * b1
  if u < 32768 then (u : ℤ) else (u : ℤ) - 65536

/-- `sample_conv`: `(sample < 0) ? (-1.0 * sample / SHRT_MIN) : (1.0 * sample / SHRT_MAX)`. -/
def sample_conv (sample : ℤ) : ℚ :=
  if sample < 0 then (-1 : ℚ) * (sample : ℚ) / (SHRT_MIN : ℚ)
  else (1 : ℚ) * (sample : ℚ) / (SHRT_MAX : ℚ)

/-- The 16-bit sample of channel `ch` in frame `f` of an interleaved byte
block (frame `f` occupies bytes `4*f .. 4*f+3`; channel `ch` contributes the
byte pair at offset `2*ch` within the frame). -/
def frame_sample (bs : List ℕ) (f : ℕ) (ch : ℕ) : ℤ :=
  toSigned16 (bs.getD (4 * f + 2 * ch) 0) (bs.getD (4 * f + 2 * ch + 1) 0)

/-- `deinterleave_and_convert`: convert `nframes` interleaved frames of a
byte block into the two per-channel planar sample lists, reading the 16-bit
samples consecutively as `*ifp++` does.  (The C function writes into the
output buffers at a given frame offset; `process` below reproduces the
offset bookkeeping by concatenation, since the callback's writes are at
consecutive cumulative offsets.) -/
def deinterleave_and_convert (bs : List ℕ) (nframes : ℕ) : List ℚ × List ℚ :=
  ((List.range nframes).map fun f => sample_conv (frame_sample bs f 0),
   (List.range nframes).map fun f => sample_conv (frame_sample bs f 1))

/-- `List.replicate n 0` — the silence the callback's trailing loop writes. -/
def silence (n : ℕ) : List ℚ := List.replicate n (0 : ℚ)

/-- Result of one invocation of the `process` callback: the two channel
output buffers, the successor state, and the return code. -/
structure ProcessResult where
  out_L : List ℚ
  out_R : List ℚ
  state : JackState
  ret : ℤ
deriving Repr, DecidableEq

/-- The realtime `process` callback.  If `flush_please` is set, the read
cursor is advanced over the whole occupancy, the flag is cleared, and — as
`nframes` was not decremented — the trailing silence loop zeroes the whole
period.  Otherwise the two read spans are consumed in order (the `for
(i=0;i<2;i++)` loop is unrolled): each span contributes
`min(span_bytes / bytes_per_frame, frames still needed)` frames, the read
cursor is advanced by the bytes of the frames consumed, and the shortfall is
filled with silence. -/
def process (st : JackState) (nframes : ℕ) : ProcessResult :=
  if st.flush_please then
    { out_L := silence nframes
      out_R := silence nframes
      state := { st with
        jackbuf := jack_ringbuffer_read_advance st.jackbuf
          (jack_ringbuffer_read_space st.jackbuf)
        flush_please := false }
      ret := 0 }
  else
    let v1 := (jack_ringbuffer_get_read_vector st.jackbuf).1
    let v2 := (jack_ringbuffer_get_read_vector st.jackbuf).2
    let thisbuf1 := v1.length / bytes_per_frame
    let frames_required1 := if thisbuf1 > nframes then nframes else thisbuf1
    let nframes1 := nframes - frames_required1
    let thisbuf2 := v2.length / bytes_per_frame
    let frames_required2 := if thisbuf2 > nframes1 then nframes1 else thisbuf2
    let nframes2 := nframes1 - frames_required2
    { out_L := (deinterleave_and_convert v1 frames_required1).1
        ++ (deinterleave_and_convert v2 frames_required2).1
        ++ silence nframes2
      out_R := (deinterleave_and_convert v1 frames_required1).2
        ++ (deinterleave_and_convert v2 frames_required2).2
        ++ silence nframes2
      state := { st with
        jackbuf := jack_ringbuffer_read_advance st.jackbuf
          ((frames_required1 + frames_required2) * bytes_per_frame) }
      ret := 0 }

/-- `jack_flush`: set the flush flag; the discard happens lazily in the
consumer. -/
def jack_flush (st : JackState) : JackState := { st with flush_please := true }

/-- Result of `jack_delay`: the value stored through `*the_delay` and the
function's return code. -/
structure DelayResult where
  the_delay : ℤ
  ret : ℤ
deriving Repr, DecidableEq

/-- `jack_delay`: `delta` is the fixed-point (32.32) time since the last
transfer into the ring buffer; the frames processed since then are
`(delta * 44100) >> 32`; the stored delay is
`jack_latency + audio_occupancy_now - frames_processed_since_latest_latency_check`.
The C function unconditionally returns 0. -/
def jack_delay (st : JackState) (time_now : ℤ) : DelayResult :=
  let delta : ℤ := time_now - st.time_of_latest_transfer
  let audio_occupancy_now : ℕ :=
    jack_ringbuffer_read_space st.jackbuf / bytes_per_frame
  let frames_processed_since_latest_latency_check : ℤ :=
    (delta * 44100) >>> (32 : ℕ)
  { the_delay := st.jack_latency + (audio_occupancy_now : ℤ)
      - frames_processed_since_latest_latency_check
    ret := 0 }

/-- Result of `play`: the successor state, the byte count the ring-buffer
write reported (used only for the overrun warning), and the return value. -/
structure PlayResult where
  state : JackState
  bytes_transferred : ℕ
  ret : ℤ
deriving Repr, DecidableEq

/-- `play(buf, samples)`: transfer `samples * bytes_per_frame` bytes of
`buf` into the ring buffer (the ring buffer truncates on overrun), record
the current absolute time as `time_of_latest_transfer`, and return 0. -/
def play (st : JackState) (time_now : ℤ) (buf : List ℕ) (samples : ℕ) :
    PlayResult :=
  let bytes_to_transfer := samples * bytes_per_frame
  let w := jack_ringbuffer_write st.jackbuf (buf.take bytes_to_transfer)
  { state := { st with
      jackbuf := w.1
      time_of_latest_transfer := time_now }
    bytes_transferred := w.2
    ret := 0 }

/-! ### Concrete states used to instantiate the theorems -/

/-- A state mid-stream: six queued bytes (one whole frame plus a partial
frame), read cursor four bytes short of the physical end. -/
def stUnderrun : JackState :=
  { jackbuf := { cap := 12, rpos := 8, queue := [1, 2, 3, 4, 5, 6] }
    flush_please := false
    time_of_latest_transfer := 0
    jack_latency := 0
    client_open := true }

/-- A freshly initialised backend with an empty ring buffer. -/
def stEmptyBuf : JackState :=
  { jackbuf := { cap := buffer_size, rpos := 0, queue := [] }
    flush_please := false
    time_of_latest_transfer := 0
    jack_latency := 0
    client_open := true }

/-- A state with two queued frames and a pending flush request. -/
def stFlushPending : JackState :=
  { jackbuf := { cap := buffer_size, rpos := 4, queue := [1, 2, 3, 4, 5, 6, 7, 8] }
    flush_please := true
    time_of_latest_transfer := 0
    jack_latency := 0
    client_open := true }

/-- The state reached from `stEmptyBuf` by requesting a flush and then
playing 200 frames (800 bytes, every byte 1) before the next callback. -/
def stAfterFlushPlay : JackState :=
  (play (jack_flush stEmptyBuf) 5 (List.replicate 800 1) 200).state

/-- One queued frame, latency 0, last transfer at time 0. -/
def stDelayOneFrame : JackState :=
  { jackbuf := { cap := buffer_size, rpos := 0, queue := [9, 9, 9, 9] }
    flush_please := false
    time_of_latest_transfer := 0
    jack_latency := 0
    client_open := true }

/-- A state in which no JACK session has been established
(`client == NULL`). -/
def stNoSession : JackState :=
  { jackbuf := { cap := buffer_size, rpos := 0, queue := [] }
    flush_please := false
    time_of_latest_transfer := 0
    jack_latency := 0
    client_open := false }

/-- A tiny ring (capacity 8) with the read cursor halfway in, so that the
next 8-byte write straddles the physical end. -/
def stWrapBase : JackState :=
  { jackbuf := { cap := 8, rpos := 4, queue := [] }
    flush_please := false
    time_of_latest_transfer := 0
    jack_latency := 0
    client_open := true }

/-- A completely full ring buffer (capacity 4 holding 4 bytes). -/
def stFullBuf : JackState :=
  { jackbuf := { cap := 4, rpos := 0, queue := [9, 9, 9, 9] }
    flush_please := false
    time_of_latest_transfer := 0
    jack_latency := 0
    client_open := true }

/-! ### General list helpers -/

theorem getD_take_lt (l : List ℕ) (n i : ℕ) (h : i < n) :
    (l.take n).getD i 0 = l.getD i 0 := by
  simp [List.getD_eq_getElem?_getD, List.getElem?_take_of_lt h]

theorem getD_drop_add (l : List ℕ) (n i : ℕ) :
    (l.drop n).getD i 0 = l.getD (n + i) 0 := by
  simp [List.getD_eq_getElem?_getD, List.getElem?_drop]

theorem getD_range_map (g : ℕ → ℚ) (k f : ℕ) (h : f < k) :
    ((List.range k).map g).getD f 0 = g f := by
  have hf : f < ((List.range k).map g).length := by simpa using h
  rw [List.getD_eq_getElem _ _ hf]
  simp

theorem getD_replicate_zero (k j : ℕ) :
    (List.replicate k (0 : ℚ)).getD j 0 = 0 := by
  rcases Nat.lt_or_ge j k with h | h
  · rw [List.getD_eq_getElem _ _ (by simpa using h)]
    simp
  · rw [List.getD_eq_default]
    simpa using h

theorem append3_getD_first (A B C : List ℚ) (f : ℕ) (h : f < A.length) :
    (A ++ B ++ C).getD f 0 = A.getD f 0 := by
  rw [List.append_assoc, List.getD_append _ _ _ _ h]

theorem append3_getD_second (A B C : List ℚ) (f : ℕ) (h1 : A.length ≤ f)
    (h2 : f - A.length < B.length) :
    (A ++ B ++ C).getD f 0 = B.getD (f - A.length) 0 := by
  rw [List.append_assoc, List.getD_append_right _ _ _ _ h1,
    List.getD_append _ _ _ _ h2]

theorem append3_getD_third (A B C : List ℚ) (f : ℕ) (h1 : A.length ≤ f)
    (h2 : B.length ≤ f - A.length) :
    (A ++ B ++ C).getD f 0 = C.getD (f - A.length - B.length) 0 := by
  rw [List.append_assoc, List.getD_append_right _ _ _ _ h1,
    List.getD_append_right _ _ _ _ h2]

theorem frame_sample_take (q : List ℕ) (a f ch : ℕ)
    (h : 4 * f + 2 * ch + 1 < a) :
    frame_sample (q.take a) f ch = frame_sample q f ch := by
  unfold frame_sample
  rw [getD_take_lt _ _ _ (by omega), getD_take_lt _ _ _ h]

theorem frame_sample_drop (q : List ℕ) (a m f ch : ℕ)
    (ha : a = 4 * m) (hmf : m ≤ f) :
    frame_sample (q.drop a) (f - m) ch = frame_sample q f ch := by
  unfold frame_sample
  rw [getD_drop_add, getD_drop_add,
    show a + (4 * (f - m) + 2 * ch) = 4 * f + 2 * ch by omega,
    show a + (4 * (f - m) + 2 * ch + 1) = 4 * f + 2 * ch + 1 by omega]

/-! ### C7 — the integer-to-float sample mapping -/

/-- C7: for every signed 16-bit sample `s`, `sample_conv` yields a value in
`[-1, 1]` equal to `s / 32768` on the negative half-range and `s / 32767` on
the non-negative half-range (so it is linear on each half), maps `SHRT_MIN`
to `-1`, `0` to `0` and `SHRT_MAX` to `1`, and is asymmetric between the two
half-ranges. -/
theorem sample_conv_asymmetric_linear (s : ℤ)
    (h1 : SHRT_MIN ≤ s) (h2 : s ≤ SHRT_MAX) :
    (-1 ≤ sample_conv s ∧ sample_conv s ≤ 1) ∧
    (s < 0 → sample_conv s = (s : ℚ) / 32768) ∧
    (0 ≤ s → sample_conv s = (s : ℚ) / 32767) ∧
    sample_conv SHRT_MIN = -1 ∧ sample_conv 0 = 0 ∧ sample_conv SHRT_MAX = 1 ∧
    sample_conv (-32767) ≠ -sample_conv 32767 := by
  have hneg : ∀ t : ℤ, t < 0 → sample_conv t = (t : ℚ) / 32768 := by
    intro t ht
    rw [sample_conv, if_pos ht, SHRT_MIN]
    push_cast
    ring
  have hpos : ∀ t : ℤ, 0 ≤ t → sample_conv t = (t : ℚ) / 32767 := by
    intro t ht
    rw [sample_conv, if_neg (not_lt.mpr ht), SHRT_MAX]
    push_cast
    ring
  have hs1 : (-32768 : ℚ) ≤ (s : ℚ) := by
    rw [SHRT_MIN] at h1; exact_mod_cast h1
  have hs2 : (s : ℚ) ≤ 32767 := by
    rw [SHRT_MAX] at h2; exact_mod_cast h2
  refine ⟨?_, hneg s, hpos s, ?_, ?_, ?_, ?_⟩
  · rcases lt_or_ge s 0 with hc | hc
    · rw [hneg s hc]
      constructor
      · rw [le_div_iff₀ (by norm_num : (0:ℚ) < 32768)]
        linarith
      · rw [div_le_one (by norm_num : (0:ℚ) < 32768)]
        linarith
    · rw [hpos s hc]
      have hs0 : (0 : ℚ) ≤ (s : ℚ) := by exact_mod_cast hc
      constructor
      · rw [le_div_iff₀ (by norm_num : (0:ℚ) < 32767)]
        linarith
      · rw [div_le_one (by norm_num : (0:ℚ) < 32767)]
        linarith
  · rw [SHRT_MIN, hneg (-32768) (by norm_num)]
    norm_num
  · rw [hpos 0 le_rfl]
    norm_num
  · rw [SHRT_MAX, hpos 32767 (by norm_num)]
    norm_num
  · rw [hneg (-32767) (by norm_num), hpos 32767 (by norm_num)]
    norm_num

/-- Witness for `sample_conv_asymmetric_linear` at the extreme negative
sample. -/
theorem sample_conv_asymmetric_linear_witness :
    (SHRT_MIN ≤ -32768 ∧ (-32768 : ℤ) ≤ SHRT_MAX) ∧
    (((-1 ≤ sample_conv (-32768) ∧ sample_conv (-32768) ≤ 1) ∧
      ((-32768 : ℤ) < 0 → sample_conv (-32768) = ((-32768 : ℤ) : ℚ) / 32768) ∧
      ((0 : ℤ) ≤ -32768 → sample_conv (-32768) = ((-32768 : ℤ) : ℚ) / 32767) ∧
      sample_conv SHRT_MIN = -1 ∧ sample_conv 0 = 0 ∧
      sample_conv SHRT_MAX = 1 ∧
      sample_conv (-32767) ≠ -sample_conv 32767)) :=
  ⟨⟨by decide, by decide⟩,
    sample_conv_asymmetric_linear (-32768) (by decide) (by decide)⟩

/-! ### C5 — the delay formula -/

/-- C5: the delay stored by `jack_delay` is exactly
`jack_latency + unread_byte_count / bytes_per_frame - frames_since_transfer`,
where `frames_since_transfer` is the arithmetic right shift by 32 of the
32.32 fixed-point product `(now - time_of_latest_transfer) * 44100` — that
is, the floor of the product divided by `2 ^ 32`. -/
theorem jack_delay_formula (st : JackState) (time_now : ℤ) :
    (jack_delay st time_now).the_delay
      = st.jack_latency
        + ((jack_ringbuffer_read_space st.jackbuf / bytes_per_frame : ℕ) : ℤ)
        - (((time_now - st.time_of_latest_transfer) * 44100) >>> (32 : ℕ))
    ∧ (((time_now - st.time_of_latest_transfer) * 44100) >>> (32 : ℕ))
      = ((time_now - st.time_of_latest_transfer) * 44100) / 2 ^ 32
    ∧ (jack_delay st time_now).ret = 0 := by
  refine ⟨rfl, ?_, rfl⟩
  rw [Int.shiftRight_eq_div_pow]
  norm_num

/-! ### C6 — non-negativity of the delay estimate -/

/-- C6: whenever the latency estimate is non-negative and the elapsed
fixed-point time since the last transfer, scaled by 44100, is strictly
below the queued duration (`occupancy_frames * 2 ^ 32`), the delay stored by
`jack_delay` is non-negative.  (The occupancy is a natural number, hence
non-negative by construction.) -/
theorem jack_delay_nonneg (st : JackState) (time_now : ℤ)
    (hL : 0 ≤ st.jack_latency)
    (hdelta : (time_now - st.time_of_latest_transfer) * 44100
      < ((jack_ringbuffer_read_space st.jackbuf / bytes_per_frame : ℕ) : ℤ)
          * 2 ^ 32) :
    0 ≤ (jack_delay st time_now).the_delay := by
  have hshift : (((time_now - st.time_of_latest_transfer) * 44100) >>> (32 : ℕ))
      = ((time_now - st.time_of_latest_transfer) * 44100) / 2 ^ 32 := by
    rw [Int.shiftRight_eq_div_pow]
    norm_num
  have hlt : ((time_now - st.time_of_latest_transfer) * 44100) / 2 ^ 32
      < ((jack_ringbuffer_read_space st.jackbuf / bytes_per_frame : ℕ) : ℤ) :=
    Int.ediv_lt_of_lt_mul (by positivity) hdelta
  simp only [jack_delay, hshift]
  omega

/-- Witness for `jack_delay_nonneg`: one queued frame, zero latency, one
fixed-point time unit elapsed since the last transfer. -/
theorem jack_delay_nonneg_witness :
    (0 ≤ stDelayOneFrame.jack_latency ∧
      ((1 : ℤ) - stDelayOneFrame.time_of_latest_transfer) * 44100
        < ((jack_ringbuffer_read_space stDelayOneFrame.jackbuf
              / bytes_per_frame : ℕ) : ℤ) * 2 ^ 32) ∧
    0 ≤ (jack_delay stDelayOneFrame 1).the_delay :=
  ⟨⟨by decide, by decide⟩, jack_delay_nonneg stDelayOneFrame 1 (by decide) (by decide)⟩

/-! ### C8 — the delay call never fails -/

/-- C8 counterexample: even in a state in which no JACK session has been
established (`client_open = false`), `jack_delay` returns 0 (success) — it
does not fail, contrary to the claim that it fails without a valid
session. -/
theorem jack_delay_counterexample :
    stNoSession.client_open = false ∧ (jack_delay stNoSession 0).ret = 0 :=
  ⟨rfl, rfl⟩

/-- C8 amended: `jack_delay` unconditionally succeeds — it returns 0 and
stores a delay in every state, performing no session-validity check. -/
theorem jack_delay_always_succeeds (st : JackState) (time_now : ℤ) :
    (jack_delay st time_now).ret = 0 := rfl

/-! ### C10 — `play` always refreshes the transfer timestamp -/

/-- C10: every call to `play` sets `time_of_latest_transfer` to the current
absolute time; in particular a call against a full ring buffer transfers
zero bytes and leaves the queue unchanged while still resetting the
timestamp. -/
theorem play_always_updates_timestamp (st : JackState) (time_now : ℤ)
    (buf : List ℕ) (samples : ℕ) :
    (play st time_now buf samples).state.time_of_latest_transfer = time_now ∧
    (st.jackbuf.queue.length = st.jackbuf.cap →
      (play st time_now buf samples).bytes_transferred = 0 ∧
      (play st time_now buf samples).state.jackbuf.queue
        = st.jackbuf.queue) := by
  refine ⟨rfl, fun hfull => ?_⟩
  unfold play jack_ringbuffer_write jack_ringbuffer_write_space
  simp [hfull]

/-- Witness for `play_always_updates_timestamp` on a full buffer. -/
theorem play_always_updates_timestamp_witness :
    (play stFullBuf 7 [1, 2, 3, 4] 1).state.time_of_latest_transfer = 7 ∧
    stFullBuf.jackbuf.queue.length = stFullBuf.jackbuf.cap ∧
    ((play stFullBuf 7 [1, 2, 3, 4] 1).bytes_transferred = 0 ∧
      (play stFullBuf 7 [1, 2, 3, 4] 1).state.jackbuf.queue
        = stFullBuf.jackbuf.queue) :=
  ⟨(play_always_updates_timestamp stFullBuf 7 [1, 2, 3, 4] 1).1, by decide,
    (play_always_updates_timestamp stFullBuf 7 [1, 2, 3, 4] 1).2 (by decide)⟩

/-! ### C3 — the flush path of the callback -/

/-- C3: when the flush flag is set at entry, the callback advances the read
cursor by the entire unread occupancy (emptying the queue), clears the flag,
and outputs `nframes` frames of silence on both channels, consuming nothing
as real audio. -/
theorem process_flush_discards_all (st : JackState) (nframes : ℕ)
    (hf : st.flush_please = true) :
    (process st nframes).state.jackbuf.queue = [] ∧
    (process st nframes).state.jackbuf.rpos
      = (st.jackbuf.rpos + jack_ringbuffer_read_space st.jackbuf)
          % st.jackbuf.cap ∧
    (process st nframes).state.flush_please = false ∧
    (process st nframes).out_L = List.replicate nframes 0 ∧
    (process st nframes).out_R = List.replicate nframes 0 := by
  simp [process, hf, jack_ringbuffer_read_advance, jack_ringbuffer_read_space,
    silence, List.drop_length]

/-- Witness for `process_flush_discards_all`: a pending flush over two
queued frames, with a three-frame period. -/
theorem process_flush_discards_all_witness :
    stFlushPending.flush_please = true ∧
    ((process stFlushPending 3).state.jackbuf.queue = [] ∧
      (process stFlushPending 3).state.jackbuf.rpos
        = (stFlushPending.jackbuf.rpos
            + jack_ringbuffer_read_space stFlushPending.jackbuf)
            % stFlushPending.jackbuf.cap ∧
      (process stFlushPending 3).state.flush_please = false ∧
      (process stFlushPending 3).out_L = List.replicate 3 0 ∧
      (process stFlushPending 3).out_R = List.replicate 3 0) :=
  ⟨rfl, process_flush_discards_all stFlushPending 3 rfl⟩

/-! ### C2 — the producer write path -/

/-- C2 counterexample: with an empty ring buffer, `play` of one frame
transfers 4 bytes (one frame) but returns 0, not the count of frames
actually written — refuting the claim that the return value is the count
written. -/
theorem play_return_counterexample :
    (play stEmptyBuf 0 [7, 7, 7, 7] 1).bytes_transferred = bytes_per_frame ∧
    (play stEmptyBuf 0 [7, 7, 7, 7] 1).ret = 0 ∧
    (play stEmptyBuf 0 [7, 7, 7, 7] 1).ret
      ≠ ((play stEmptyBuf 0 [7, 7, 7, 7] 1).bytes_transferred
          / bytes_per_frame : ℕ) := by
  refine ⟨by decide, rfl, by decide⟩

/-- C2 amended: `play` writes exactly `min(requested bytes, free space)`
bytes — in particular exactly `r` bytes when only `r` of `s > r` requested
bytes fit, silently dropping the excess — but its return value is always 0;
the count actually transferred is only recorded for the overrun warning,
never returned. -/
theorem play_truncates_on_overrun (st : JackState) (time_now : ℤ)
    (buf : List ℕ) (samples : ℕ)
    (hbuf : samples * bytes_per_frame ≤ buf.length) :
    (play st time_now buf samples).ret = 0 ∧
    (play st time_now buf samples).bytes_transferred
      = min (samples * bytes_per_frame)
          (jack_ringbuffer_write_space st.jackbuf) ∧
    (play st time_now buf samples).state.jackbuf.queue
      = st.jackbuf.queue
        ++ (buf.take (samples * bytes_per_frame)).take
            (jack_ringbuffer_write_space st.jackbuf) := by
  refine ⟨rfl, ?_, rfl⟩
  unfold play jack_ringbuffer_write
  simp only [List.length_take]
  omega

/-- Witness for `play_truncates_on_overrun`: two frames offered to a tiny
full-but-for-4-bytes buffer — one frame fits, one frame is dropped. -/
theorem play_truncates_on_overrun_witness :
    2 * bytes_per_frame ≤ ([1, 2, 3, 4, 5, 6, 7, 8] : List ℕ).length ∧
    ((play stFullBuf 0 [1, 2, 3, 4, 5, 6, 7, 8] 2).ret = 0 ∧
      (play stFullBuf 0 [1, 2, 3, 4, 5, 6, 7, 8] 2).bytes_transferred
        = min (2 * bytes_per_frame)
            (jack_ringbuffer_write_space stFullBuf.jackbuf) ∧
      (play stFullBuf 0 [1, 2, 3, 4, 5, 6, 7, 8] 2).state.jackbuf.queue
        = stFullBuf.jackbuf.queue
          ++ (([1, 2, 3, 4, 5, 6, 7, 8] : List ℕ).take (2 * bytes_per_frame)).take
              (jack_ringbuffer_write_space stFullBuf.jackbuf)) :=
  ⟨by decide, play_truncates_on_overrun stFullBuf 0 [1, 2, 3, 4, 5, 6, 7, 8] 2 (by decide)⟩

/-! ### C4 — flush followed by a submit before the next callback -/

set_option maxRecDepth 4000 in
/-- C4 counterexample: request a flush on an empty buffer, then `play` 200
frames (every byte 1) before the next callback.  The next callback finds the
200 frames queued (800 bytes), yet outputs pure silence and empties the
queue: the post-flush frames are discarded, not played, although their
converted amplitude (257/32767) is non-zero. -/
theorem flush_then_play_counterexample :
    stAfterFlushPlay.jackbuf.queue.length = 200 * bytes_per_frame ∧
    sample_conv (frame_sample stAfterFlushPlay.jackbuf.queue 0 0) ≠ 0 ∧
    (process stAfterFlushPlay 200).out_L = List.replicate 200 0 ∧
    (process stAfterFlushPlay 200).state.jackbuf.queue = [] := by
  have hq : stAfterFlushPlay.jackbuf.queue = List.replicate 800 1 := by
    simp [stAfterFlushPlay, play, jack_flush, jack_ringbuffer_write,
      jack_ringbuffer_write_space, stEmptyBuf, buffer_size, bytes_per_frame,
      List.take_replicate]
  have hflag : stAfterFlushPlay.flush_please = true := rfl
  refine ⟨?_, ?_, ?_, ?_⟩
  · rw [hq]
    simp [bytes_per_frame]
  · rw [hq]
    have h1 : frame_sample (List.replicate 800 (1 : ℕ)) 0 0 = 257 := by decide
    rw [h1]
    norm_num [sample_conv, SHRT_MAX]
  · simp [process, hflag, silence]
  · simp [process, hflag, jack_ringbuffer_read_advance,
      jack_ringbuffer_read_space, List.drop_length]

/-- C4 amended: if `request_flush` is followed by a `play` that completes
before the next callback, that callback discards everything pending at the
moment it observes the flag — the pre-flush residue and the post-flush
submission alike — clears the flag, and outputs all `nframes` frames as
silence on both channels. -/
theorem flush_then_play_then_process_discards_all (st : JackState)
    (time_now : ℤ) (buf : List ℕ) (samples nframes : ℕ) :
    (process (play (jack_flush st) time_now buf samples).state nframes).out_L
      = List.replicate nframes 0 ∧
    (process (play (jack_flush st) time_now buf samples).state nframes).out_R
      = List.replicate nframes 0 ∧
    (process (play (jack_flush st) time_now buf samples).state
        nframes).state.jackbuf.queue = [] ∧
    (process (play (jack_flush st) time_now buf samples).state
        nframes).state.flush_please = false := by
  simp [process, play, jack_flush, jack_ringbuffer_write,
    jack_ringbuffer_read_advance, jack_ringbuffer_read_space, silence,
    List.drop_length]

/-! ### The non-flush path of the callback -/

/-- Core characterisation of the non-flush path of `process`.  Provided the
read cursor and the capacity are frame-aligned (so the wrap split falls on a
frame boundary — an invariant of the running system, where all advances are
whole frames and the capacity is a multiple of `bytes_per_frame`): the
callback emits exactly `nframes` samples per channel; the first
`k = min(whole frames queued, nframes)` output frames are the queued frames
converted by `sample_conv` in FIFO order; the rest are zeros; and exactly
the `k` consumed frames are removed from the queue. -/
theorem process_noflush_frames (st : JackState) (nframes : ℕ)
    (hf : st.flush_please = false)
    (ha : 4 ∣ (st.jackbuf.cap - st.jackbuf.rpos)) :
    (process st nframes).out_L.length = nframes ∧
    (process st nframes).out_R.length = nframes ∧
    (∀ f, f < min (st.jackbuf.queue.length / 4) nframes →
      (process st nframes).out_L.getD f 0
        = sample_conv (frame_sample st.jackbuf.queue f 0) ∧
      (process st nframes).out_R.getD f 0
        = sample_conv (frame_sample st.jackbuf.queue f 1)) ∧
    (∀ f, min (st.jackbuf.queue.length / 4) nframes ≤ f → f < nframes →
      (process st nframes).out_L.getD f 0 = 0 ∧
      (process st nframes).out_R.getD f 0 = 0) ∧
    (process st nframes).state.jackbuf.queue
      = st.jackbuf.queue.drop (4 * min (st.jackbuf.queue.length / 4) nframes) := by
  obtain ⟨m, hm⟩ := ha
  simp only [process, hf, Bool.false_eq_true, if_false,
    jack_ringbuffer_get_read_vector, deinterleave_and_convert,
    jack_ringbuffer_read_advance, bytes_per_frame, silence]
  set q := st.jackbuf.queue with hq
  set a := st.jackbuf.cap - st.jackbuf.rpos with haa
  set t1 := (q.take a).length / 4 with ht1
  set fr1 := if t1 > nframes then nframes else t1 with hfr1
  set t2 := (q.drop a).length / 4 with ht2
  set fr2 := if t2 > nframes - fr1 then nframes - fr1 else t2 with hfr2
  have hfr1m : fr1 = min t1 nframes := by
    rw [hfr1]
    split <;> omega
  have hfr2m : fr2 = min t2 (nframes - fr1) := by
    rw [hfr2]
    split <;> omega
  have hlt1 : t1 = min a q.length / 4 := by
    rw [ht1, List.length_take]
  have hlt2 : t2 = (q.length - a) / 4 := by
    rw [ht2, List.length_drop]
  have hsum : fr1 + fr2 = min (q.length / 4) nframes := by omega
  have hle : fr1 + fr2 ≤ nframes := by omega
  refine ⟨?_, ?_, ?_, ?_, ?_⟩
  · simp only [List.length_append, List.length_map, List.length_range,
      List.length_replicate]
    omega
  · simp only [List.length_append, List.length_map, List.length_range,
      List.length_replicate]
    omega
  · intro f hfk
    have hfk2 : f < fr1 + fr2 := by omega
    rcases Nat.lt_or_ge f fr1 with hcase | hcase
    · have h1L : f < ((List.range fr1).map fun f =>
          sample_conv (frame_sample (q.take a) f 0)).length := by
        simpa using hcase
      have h1R : f < ((List.range fr1).map fun f =>
          sample_conv (frame_sample (q.take a) f 1)).length := by
        simpa using hcase
      constructor
      · rw [append3_getD_first _ _ _ _ h1L, getD_range_map _ _ _ hcase,
          frame_sample_take q a f 0 (by omega)]
      · rw [append3_getD_first _ _ _ _ h1R, getD_range_map _ _ _ hcase,
          frame_sample_take q a f 1 (by omega)]
    · have hfr1t : fr1 = m := by omega
      have h1L : ((List.range fr1).map fun f =>
          sample_conv (frame_sample (q.take a) f 0)).length ≤ f := by
        simpa using hcase
      have h1R : ((List.range fr1).map fun f =>
          sample_conv (frame_sample (q.take a) f 1)).length ≤ f := by
        simpa using hcase
      have h2len : f - fr1 < fr2 := by omega
      have h2L : f - ((List.range fr1).map fun f =>
            sample_conv (frame_sample (q.take a) f 0)).length
          < ((List.range fr2).map fun f =>
            sample_conv (frame_sample (q.drop a) f 0)).length := by
        simpa using h2len
      have h2R : f - ((List.range fr1).map fun f =>
            sample_conv (frame_sample (q.take a) f 1)).length
          < ((List.range fr2).map fun f =>
            sample_conv (frame_sample (q.drop a) f 1)).length := by
        simpa using h2len
      constructor
      · rw [append3_getD_second _ _ _ _ h1L h2L]
        simp only [List.length_map, List.length_range]
        rw [getD_range_map _ _ _ h2len,
          show f - fr1 = f - m by omega,
          frame_sample_drop q a m f 0 (by omega) (by omega)]
      · rw [append3_getD_second _ _ _ _ h1R h2R]
        simp only [List.length_map, List.length_range]
        rw [getD_range_map _ _ _ h2len,
          show f - fr1 = f - m by omega,
          frame_sample_drop q a m f 1 (by omega) (by omega)]
  · intro f hk hn
    have h1L : ((List.range fr1).map fun f =>
        sample_conv (frame_sample (q.take a) f 0)).length ≤ f := by
      simp only [List.length_map, List.length_range]
      omega
    have h1R : ((List.range fr1).map fun f =>
        sample_conv (frame_sample (q.take a) f 1)).length ≤ f := by
      simp only [List.length_map, List.length_range]
      omega
    have h2L : ((List.range fr2).map fun f =>
          sample_conv (frame_sample (q.drop a) f 0)).length
        ≤ f - ((List.range fr1).map fun f =>
          sample_conv (frame_sample (q.take a) f 0)).length := by
      simp only [List.length_map, List.length_range]
      omega
    have h2R : ((List.range fr2).map fun f =>
          sample_conv (frame_sample (q.drop a) f 1)).length
        ≤ f - ((List.range fr1).map fun f =>
          sample_conv (frame_sample (q.take a) f 1)).length := by
      simp only [List.length_map, List.length_range]
      omega
    constructor
    · rw [append3_getD_third _ _ _ _ h1L h2L, getD_replicate_zero]
    · rw [append3_getD_third _ _ _ _ h1R h2R, getD_replicate_zero]
  · rw [show (fr1 + fr2) * 4 = 4 * min (q.length / 4) nframes by omega]

/-! ### C1 — underrun padding on the non-flush path -/

/-- C1: on every non-flush invocation with frame-aligned cursor and
capacity, the callback writes exactly `nframes` samples into each of the two
channel buffers; the first `k = min(whole frames queued, nframes)` frames
are the queued samples converted by `sample_conv` in FIFO order, and the
remaining `nframes - k` frames are exactly 0 on both channels, real audio
preceding silence. -/
theorem process_underrun_padding (st : JackState) (nframes : ℕ)
    (hf : st.flush_please = false)
    (hcap : 4 ∣ st.jackbuf.cap) (hrpos : 4 ∣ st.jackbuf.rpos) :
    (process st nframes).out_L.length = nframes ∧
    (process st nframes).out_R.length = nframes ∧
    (∀ f, f < min (st.jackbuf.queue.length / 4) nframes →
      (process st nframes).out_L.getD f 0
        = sample_conv (frame_sample st.jackbuf.queue f 0) ∧
      (process st nframes).out_R.getD f 0
        = sample_conv (frame_sample st.jackbuf.queue f 1)) ∧
    (∀ f, min (st.jackbuf.queue.length / 4) nframes ≤ f → f < nframes →
      (process st nframes).out_L.getD f 0 = 0 ∧
      (process st nframes).out_R.getD f 0 = 0) ∧
    (process st nframes).state.jackbuf.queue
      = st.jackbuf.queue.drop (4 * min (st.jackbuf.queue.length / 4) nframes) :=
  process_noflush_frames st nframes hf (Nat.dvd_sub' hcap hrpos)

/-- Witness for `process_underrun_padding`: six queued bytes (one whole
frame), a three-frame period — one real frame then two frames of silence. -/
theorem process_underrun_padding_witness :
    (stUnderrun.flush_please = false ∧ 4 ∣ stUnderrun.jackbuf.cap ∧
      4 ∣ stUnderrun.jackbuf.rpos) ∧
    ((process stUnderrun 3).out_L.length = 3 ∧
      (process stUnderrun 3).out_R.length = 3 ∧
      (∀ f, f < min (stUnderrun.jackbuf.queue.length / 4) 3 →
        (process stUnderrun 3).out_L.getD f 0
          = sample_conv (frame_sample stUnderrun.jackbuf.queue f 0) ∧
        (process stUnderrun 3).out_R.getD f 0
          = sample_conv (frame_sample stUnderrun.jackbuf.queue f 1)) ∧
      (∀ f, min (stUnderrun.jackbuf.queue.length / 4) 3 ≤ f → f < 3 →
        (process stUnderrun 3).out_L.getD f 0 = 0 ∧
        (process stUnderrun 3).out_R.getD f 0 = 0) ∧
      (process stUnderrun 3).state.jackbuf.queue
        = stUnderrun.jackbuf.queue.drop
            (4 * min (stUnderrun.jackbuf.queue.length / 4) 3)) :=
  ⟨⟨rfl, by decide, by decide⟩,
    process_underrun_padding stUnderrun 3 rfl (by decide) (by decide)⟩

/-! ### C9 — wraparound correctness -/

/-- C9: a write that begins before the ring's physical end and crosses it
(`hpre`/`hstraddle`) leaves a queue whose two consumer-side read spans
concatenate back to the exact byte sequence (second span non-empty: the read
spans the same boundary); the queue equals the old bytes followed by the
transferred bytes with nothing skipped or duplicated; and the next
`process` invocation converts those frames into the outputs in FIFO order,
byte-identical to the frames written, consuming exactly the frames it
emitted. -/
theorem process_wraparound_reconstruction (st : JackState) (time_now : ℤ)
    (buf : List ℕ) (samples nframes : ℕ)
    (hf : st.flush_please = false)
    (hcap : 4 ∣ st.jackbuf.cap) (hrpos : 4 ∣ st.jackbuf.rpos)
    (hpre : st.jackbuf.rpos + st.jackbuf.queue.length ≤ st.jackbuf.cap)
    (hstraddle : st.jackbuf.cap - st.jackbuf.rpos
      < (play st time_now buf samples).state.jackbuf.queue.length) :
    (jack_ringbuffer_get_read_vector
        (play st time_now buf samples).state.jackbuf).1
      ++ (jack_ringbuffer_get_read_vector
        (play st time_now buf samples).state.jackbuf).2
      = (play st time_now buf samples).state.jackbuf.queue ∧
    0 < (jack_ringbuffer_get_read_vector
        (play st time_now buf samples).state.jackbuf).2.length ∧
    (play st time_now buf samples).state.jackbuf.queue
      = st.jackbuf.queue ++ (buf.take (samples * bytes_per_frame)).take
          (jack_ringbuffer_write_space st.jackbuf) ∧
    (∀ f, f < min
        ((play st time_now buf samples).state.jackbuf.queue.length / 4)
        nframes →
      (process (play st time_now buf samples).state nframes).out_L.getD f 0
        = sample_conv (frame_sample
            (play st time_now buf samples).state.jackbuf.queue f 0) ∧
      (process (play st time_now buf samples).state nframes).out_R.getD f 0
        = sample_conv (frame_sample
            (play st time_now buf samples).state.jackbuf.queue f 1)) ∧
    (process (play st time_now buf samples).state nframes).state.jackbuf.queue
      = (play st time_now buf samples).state.jackbuf.queue.drop
          (4 * min
            ((play st time_now buf samples).state.jackbuf.queue.length / 4)
            nframes) := by
  have hf2 : (play st time_now buf samples).state.flush_please = false := hf
  have ha2 : 4 ∣ ((play st time_now buf samples).state.jackbuf.cap
      - (play st time_now buf samples).state.jackbuf.rpos) :=
    Nat.dvd_sub' hcap hrpos
  have hmain := process_noflush_frames
    (play st time_now buf samples).state nframes hf2 ha2
  refine ⟨List.take_append_drop _ _, ?_, rfl, hmain.2.2.1, hmain.2.2.2.2⟩
  simp only [jack_ringbuffer_get_read_vector, List.length_drop]
  exact Nat.sub_pos_of_lt hstraddle

/-- Witness for `process_wraparound_reconstruction`: capacity 8, read
cursor at 4, an 8-byte (2-frame) write that wraps past the end, then a
2-frame callback. -/
theorem process_wraparound_reconstruction_witness :
    (stWrapBase.flush_please = false ∧ 4 ∣ stWrapBase.jackbuf.cap ∧
      4 ∣ stWrapBase.jackbuf.rpos ∧
      stWrapBase.jackbuf.rpos + stWrapBase.jackbuf.queue.length
        ≤ stWrapBase.jackbuf.cap ∧
      stWrapBase.jackbuf.cap - stWrapBase.jackbuf.rpos
        < (play stWrapBase 0 [1, 0, 2, 0, 3, 0, 4, 0] 2).state.jackbuf.queue.length) ∧
    ((jack_ringbuffer_get_read_vector
        (play stWrapBase 0 [1, 0, 2, 0, 3, 0, 4, 0] 2).state.jackbuf).1
      ++ (jack_ringbuffer_get_read_vector
        (play stWrapBase 0 [1, 0, 2, 0, 3, 0, 4, 0] 2).state.jackbuf).2
      = (play stWrapBase 0 [1, 0, 2, 0, 3, 0, 4, 0] 2).state.jackbuf.queue ∧
    0 < (jack_ringbuffer_get_read_vector
        (play stWrapBase 0 [1, 0, 2, 0, 3, 0, 4, 0] 2).state.jackbuf).2.length ∧
    (play stWrapBase 0 [1, 0, 2, 0, 3, 0, 4, 0] 2).state.jackbuf.queue
      = stWrapBase.jackbuf.queue
        ++ (([1, 0, 2, 0, 3, 0, 4, 0] : List ℕ).take (2 * bytes_per_frame)).take
          (jack_ringbuffer_write_space stWrapBase.jackbuf) ∧
    (∀ f, f < min
        ((play stWrapBase 0 [1, 0, 2, 0, 3, 0, 4, 0] 2).state.jackbuf.queue.length / 4)
        2 →
      (process (play stWrapBase 0 [1, 0, 2, 0, 3, 0, 4, 0] 2).state 2).out_L.getD f 0
        = sample_conv (frame_sample
            (play stWrapBase 0 [1, 0, 2, 0, 3, 0, 4, 0] 2).state.jackbuf.queue f 0) ∧
      (process (play stWrapBase 0 [1, 0, 2, 0, 3, 0, 4, 0] 2).state 2).out_R.getD f 0
        = sample_conv (frame_sample
            (play stWrapBase 0 [1, 0, 2, 0, 3, 0, 4, 0] 2).state.jackbuf.queue f 1)) ∧
    (process (play stWrapBase 0 [1, 0, 2, 0, 3, 0, 4, 0] 2).state 2).state.jackbuf.queue
      = (play stWrapBase 0 [1, 0, 2, 0, 3, 0, 4, 0] 2).state.jackbuf.queue.drop
          (4 * min
            ((play stWrapBase 0 [1, 0, 2, 0, 3, 0, 4, 0] 2).state.jackbuf.queue.length / 4)
            2)) :=
  ⟨⟨rfl, by decide, by decide, by decide, by decide⟩,
    process_wraparound_reconstruction stWrapBase 0 [1, 0, 2, 0, 3, 0, 4, 0] 2 2
      rfl (by decide) (by decide) (by decide) (by decide)⟩

end AudioJack
